import Mathlib

/-!
Verification of src/client/patch/BasePackager.js.

The file is a shallow embedding of the packager code: JavaScript runtime
values that matter to the control flow (Buffer truthiness, the undefined
result of a missing object property) are made explicit, the filesystem is a
map from path strings to file states, and the promise bookkeeping of
generateTarGz is modelled as a pure fold over the descriptor list together
with an event-trace settlement function for the stream pipeline.
-/

namespace BasePackager

/-- A JavaScript value returned by fs.readFileSync.  On success the API
returns a Buffer (modelled as its byte list); it never returns null or
undefined, it throws instead.  The undefined constructor is kept so that
the truthiness test in packEntry is embedded faithfully. -/
inductive JsVal where
  | undef : JsVal
  | buffer : List Nat → JsVal
deriving DecidableEq, Repr

/-- JavaScript truthiness restricted to the values above: any object
(hence any Buffer, empty or not) is truthy; undefined is falsy. -/
def truthy : JsVal → Bool
  | JsVal.undef => false
  | JsVal.buffer _ => true

/-- The error values that can settle a promise in this module. -/
inductive JsError where
  | typeError : JsError
  | fsThrow : String → JsError
  | errorMsg : String → JsError
deriving DecidableEq, Repr

/-- The state of one file on disk: its bytes and its stat timestamps.
The timestamps are never read by the packager; they are carried in the
model so that independence from them can be stated. -/
structure FSFile where
  content : List Nat
  atimeFs : Int
  mtimeFs : Int
  ctimeFs : Int
deriving DecidableEq, Repr

/-- A filesystem: none means the path cannot be read. -/
def FS : Type := String → Option FSFile

/-- fs.readFileSync: the bytes of the file as a Buffer, or a thrown
error when the path cannot be read (missing file, permission denied). -/
def readFileSync (fs : FS) (p : String) : Except JsError JsVal :=
  match fs p with
  | none => Except.error (JsError.fsThrow p)
  | some f => Except.ok (JsVal.buffer f.content)

/-- A descriptor, the tuple built by the discovery passes:
name is the logical archive path, fqp the filesystem path.  -/
structure Desc where
  name : String
  fqp : String
deriving DecidableEq, Repr

/-- The header object literal built in packEntry (lines 141-148 of
BasePackager.js).  The size field is an Option because the source reads
content.size and a Node Buffer has no size property (its byte count is
exposed as length), so the JavaScript value stored there is undefined. -/
structure Header where
  name : String
  size : Option Nat
  mode : Nat
  atime : Int
  mtime : Int
  ctime : Int
deriving DecidableEq, Repr

/-- Reading the size property of a Buffer object: Node Buffers expose
length but no size property, so the access yields undefined (none). -/
def bufferSizeProp (_bytes : List Nat) : Option Nat := none

/-- packEntry (lines 132-159): synchronously read the file at desc.fqp;
a thrown read error escapes the promise executor and rejects the promise;
a falsy read result rejects with the failed-to-read error; otherwise the
header with zeroed dates, mode 0o100644 and size taken from content.size
is built and (header, bytes) is appended as the tar entry.  pack.entry on
a Buffer with such a header invokes its callback without error, so the
append resolves the promise with the entry. -/
def packEntry (fs : FS) (desc : Desc) : Except JsError (Header × List Nat) :=
  match fs desc.fqp with
  | none => Except.error (JsError.fsThrow desc.fqp)
  | some f =>
    let content : JsVal := JsVal.buffer f.content
    if truthy content = false then
      Except.error (JsError.errorMsg ("failed to read " ++ desc.fqp))
    else
      Except.ok
        ({ name := desc.name
         , size := bufferSizeProp f.content
         , mode := 0o100644
         , atime := 0
         , mtime := 0
         , ctime := 0 }, f.content)

/-- The for-await loop of generateTarGz (lines 183-189): descriptors are
processed one at a time in list order; a successful packEntry appends its
entry to the pack stream; a failed one calls reject (the first call wins,
a promise settles once) and the loop continues with the next descriptor. -/
def packLoop (fs : FS) : List Desc → List (Header × List Nat) × Option JsError
  | [] => ([], none)
  | d :: rest =>
    match packEntry fs d with
    | Except.ok e =>
      let r := packLoop fs rest
      (e :: r.1, r.2)
    | Except.error ex =>
      let r := packLoop fs rest
      (r.1, some ex)

/-- What generateTarGz (lines 168-196) leaves behind: the tar entries
appended to the pack stream in order, whether pack.finalize ran (it is
unconditional, after the loop), and the error of the first reject call
if any packEntry failed. -/
structure TarGzResult where
  entries : List (Header × List Nat)
  finalized : Bool
  rejected : Option JsError
deriving DecidableEq, Repr

/-- generateTarGz as a function of the filesystem and the descriptor
list.  The byte stream written to the destination is a deterministic
function of this record: tar serialization of the entry sequence followed
by the end-of-archive marker, then gzip with default options. -/
def generateTarGz (fs : FS) (descs : List Desc) : TarGzResult :=
  let r := packLoop fs descs
  { entries := r.1, finalized := true, rejected := r.2 }

/-- The occurrences that could settle the promise of generateTarGz, in
the order they happen at run time.  Lines 172-178 attach the finish and
error handlers to the stream returned by pipe(dest), which is dest itself;
the gzip Transform created inline receives no error handler, and pipe does
not forward error events downstream.  packFail stands for a rejected
packEntry await inside the loop. -/
inductive Occurrence where
  | packFail : Occurrence
  | destFinish : Occurrence
  | destError : Occurrence
  | gzipError : Occurrence
deriving DecidableEq, Repr

/-- How a promise can settle. -/
inductive Outcome where
  | resolved : Outcome
  | rejected : Outcome
deriving DecidableEq, Repr

/-- Settlement of the generateTarGz promise over a trace of occurrences:
the first occurrence with a registered handler settles it (a promise
settles once); a gzip compressor error has no handler anywhere in the
wiring, so it settles nothing and the trace continues. -/
def settle : List Occurrence → Option Outcome
  | [] => none
  | o :: rest =>
    match o with
    | Occurrence.packFail => some Outcome.rejected
    | Occurrence.destFinish => some Outcome.resolved
    | Occurrence.destError => some Outcome.rejected
    | Occurrence.gzipError => settle rest

/-! ## Path handling: extname and the classifiers -/

/-- The host operating system, which fixes the path separator used by the
path module and by the directory walk. -/
inductive OS where
  | posix : OS
  | win32 : OS
deriving DecidableEq, Repr

/-- The separator the OS path module inserts when joining. -/
def sepChar : OS → Char
  | OS.posix => '/'
  | OS.win32 => '\\'

/-- The characters the OS path module recognises as separators when
parsing: win32 accepts both slash and backslash. -/
def sepChars : OS → List Char
  | OS.posix => ['/']
  | OS.win32 => ['/', '\\']

/-- Drop separators at the end of the path, as the scan of Node extname
does before locating the basename. -/
def trimTrailingSeps (seps : List Char) (l : List Char) : List Char :=
  (l.reverse.dropWhile (fun c => c ∈ seps)).reverse

/-- The basename the Node extname scan works on: the characters after the
last separator, once trailing separators are dropped. -/
def basenameChars (seps : List Char) (l : List Char) : List Char :=
  ((trimTrailingSeps seps l).reverse.takeWhile (fun c => ¬ c ∈ seps)).reverse

/-- Index of the last dot of a character list, if any. -/
def lastDotIdx (l : List Char) : Option Nat :=
  match l.reverse.findIdx? (fun c => c = '.') with
  | none => none
  | some j => some (l.length - 1 - j)

/-- Node path.extname on a basename: empty when there is no dot, when the
last dot is the first character (dotfiles have no extension), or when the
basename is exactly the double dot; otherwise the suffix from the last
dot on.  This reproduces the startDot, preDotState and double-dot special
cases of the Node implementation. -/
def extnameOfBase (b : List Char) : List Char :=
  match lastDotIdx b with
  | none => []
  | some i =>
    if i = 0 then []
    else if b = ['.', '.'] then []
    else b.drop i

/-- path.extname generalised over the separator set of the OS. -/
def extnameGen (seps : List Char) (p : String) : String :=
  String.mk (extnameOfBase (basenameChars seps p.data))

/-- path.extname for a given OS. -/
def extnameOS (os : OS) (p : String) : String :=
  extnameGen (sepChars os) p

/-- path.extname on a posix host, the default reading of the classifier
contract. -/
def extname (p : String) : String := extnameOS OS.posix p

/-- Array.prototype.indexOf on an array of strings: the first index of
the element, or -1 when absent. -/
def jsIndexOf : List String → String → Int
  | [], _ => -1
  | a :: rest, s =>
    if a = s then 0
    else
      let i := jsIndexOf rest s
      if i = -1 then -1 else i + 1

/-- isMetadata (lines 107-110) for a given OS: the extensions array is
the singleton json extension and the path extension is looked up in it. -/
def isMetadataOS (os : OS) (p : String) : Bool :=
  jsIndexOf [".json"] (extnameOS os p) != -1

/-- isMetadata on a posix host. -/
def isMetadata (p : String) : Bool := isMetadataOS OS.posix p

/-- isSource (lines 120-122) with a configured keep list: membership of
the path extension in the keep array. -/
def isSource (keep : List String) (p : String) : Bool :=
  jsIndexOf keep (extname p) != -1

/-- The field state a BasePackager subclass instance carries after the
constructor ran: this.keep is the constructor argument, which the
signature documents as optional, so it may be undefined (none).  -/
structure PackagerState where
  keep : Option (List String)
deriving DecidableEq, Repr

/-- The constructor body relevant to classification (line 43):
this.keep = keep, with no validation. -/
def mkPackager (keep : Option (List String)) : PackagerState :=
  { keep := keep }

/-- isSource as executed on an instance: this.keep.indexOf is a property
chain, and when this.keep is undefined the indexOf member access throws a
TypeError instead of producing a value. -/
def isSourceRun (pkg : PackagerState) (p : String) : Except JsError Bool :=
  match pkg.keep with
  | none => Except.error JsError.typeError
  | some ks => Except.ok (jsIndexOf ks (extname p) != -1)

/-! ## The metadata walk -/

/-- One data event of the klaw walk rooted at the metadata directory:
the path of the visited node is the root joined with its components below
the root (rel), and isFile records entry.stats.isFile(). -/
structure WalkEntry where
  rel : List String
  isFile : Bool
deriving DecidableEq, Repr

/-- Join path components with a separator character, as the OS path
module renders a path.  Empty components are dropped the way path.join
drops empty segments. -/
def joinChars (sep : Char) : List String → List Char
  | [] => []
  | [c] => c.data
  | c :: rest => c.data ++ sep :: joinChars sep rest

/-- String form of a joined path. -/
def joinPath (sep : Char) (cs : List String) : String :=
  String.mk (joinChars sep cs)

/-- The absolute path of a walk entry: the root components followed by
the components below the root, joined with the OS separator. -/
def entryPath (os : OS) (root : List String) (e : WalkEntry) : String :=
  joinPath (sepChar os) (root ++ e.rel)

/-- The replacement performed on line 83 by split on backslash then join
with slash: every backslash character becomes a slash. -/
def replBackslash (s : String) : String :=
  String.mk (s.data.map (fun c => if c = '\\' then '/' else c))

/-- The name field built on line 83: path.join of the fixed META-INF
prefix with path.relative(filePath, entry.path) under the OS separator,
then backslash-to-slash normalisation for windows style paths.  For an
entry below the root, path.relative yields exactly the components below
the root joined with the OS separator. -/
def descNameOf (os : OS) (e : WalkEntry) : String :=
  replBackslash (joinPath (sepChar os) ("META-INF" :: e.rel))

/-- findMetadataDescriptors (lines 74-98), success path: the walk emits
its data events in order; each event that is a regular file and passes
isMetadata contributes a descriptor; everything else is skipped.  A walk
error rejects the promise instead, which is outside this function. -/
def findMetadataDescriptors (os : OS) (root : List String)
    (walk : List WalkEntry) : List Desc :=
  walk.filterMap (fun e =>
    if e.isFile && isMetadataOS os (entryPath os root e) then
      some { name := descNameOf os e, fqp := entryPath os root e }
    else none)

/-! ## Concrete fixtures used to evaluate the definitions -/

/-- A one-file tree whose file has some arbitrary timestamps. -/
def fsW1 : FS := fun p =>
  if p = "/src/a.go" then
    some { content := [10, 20], atimeFs := 1, mtimeFs := 2, ctimeFs := 3 }
  else none

/-- The same tree after touching the file: identical bytes, different
timestamps. -/
def fsW2 : FS := fun p =>
  if p = "/src/a.go" then
    some { content := [10, 20], atimeFs := 100, mtimeFs := 200, ctimeFs := 300 }
  else none

/-- The descriptor list over that tree. -/
def descsW : List Desc := [{ name := "a.go", fqp := "/src/a.go" }]

/-- The header packEntry builds for the file of fsW1. -/
def hdrW : Header :=
  { name := "a.go", size := none, mode := 0o100644, atime := 0, mtime := 0, ctime := 0 }

/-- A tree holding one zero-byte file. -/
def fsEmptyW : FS := fun p =>
  if p = "/m/empty.json" then
    some { content := [], atimeFs := 0, mtimeFs := 0, ctimeFs := 0 }
  else none

/-- A tree holding one three-byte file. -/
def fsC3 : FS := fun p =>
  if p = "/f" then
    some { content := [7, 8, 9], atimeFs := 0, mtimeFs := 0, ctimeFs := 0 }
  else none

/-- A tree where the first descriptor of descsC4 is missing and the
second is readable. -/
def fsC4 : FS := fun p =>
  if p = "/b" then
    some { content := [1, 2], atimeFs := 0, mtimeFs := 0, ctimeFs := 0 }
  else none

/-- Two descriptors, the first of which cannot be read under fsC4. -/
def descsC4 : List Desc :=
  [{ name := "a", fqp := "/a" }, { name := "b", fqp := "/b" }]

/-- A nested metadata file as the walk reports it on a windows host. -/
def wEntryC6 : WalkEntry := { rel := ["statedb", "idx1.json"], isFile := true }

/-- A regular file directly under the metadata root whose posix file
name contains a literal backslash. -/
def wEntryC6cex : WalkEntry := { rel := ["a\\b.json"], isFile := true }

/-! ## Helper lemmas about packEntry and the loop -/

theorem packEntry_none (fs : FS) (d : Desc) (h : fs d.fqp = none) :
    packEntry fs d = Except.error (JsError.fsThrow d.fqp) := by
  unfold packEntry
  rw [h]

theorem packEntry_some (fs : FS) (d : Desc) (f : FSFile) (h : fs d.fqp = some f) :
    packEntry fs d = Except.ok
      ({ name := d.name, size := none, mode := 0o100644
       , atime := 0, mtime := 0, ctime := 0 }, f.content) := by
  unfold packEntry
  rw [h]
  rfl

theorem packEntry_ok_header (fs : FS) (d : Desc) (e : Header × List Nat)
    (h : packEntry fs d = Except.ok e) :
    e.1 = { name := d.name, size := none, mode := 0o100644
          , atime := 0, mtime := 0, ctime := 0 } := by
  cases hfs : fs d.fqp with
  | none => rw [packEntry_none fs d hfs] at h; cases h
  | some f =>
    rw [packEntry_some fs d f hfs] at h
    cases h
    rfl

theorem packLoop_entries_filterMap (fs : FS) (descs : List Desc) :
    (packLoop fs descs).1 = descs.filterMap (fun d => (packEntry fs d).toOption) := by
  induction descs with
  | nil => rfl
  | cons d rest ih =>
    cases hpe : packEntry fs d with
    | ok e => simp [packLoop, hpe, Except.toOption, ih]
    | error ex => simp [packLoop, hpe, Except.toOption, ih]

theorem packLoop_err_isSome (fs : FS) (descs : List Desc) (d : Desc)
    (hd : d ∈ descs) (hf : fs d.fqp = none) :
    (packLoop fs descs).2.isSome = true := by
  induction descs with
  | nil => cases hd
  | cons x rest ih =>
    cases hpe : packEntry fs x with
    | ok e =>
      have hdr : d ∈ rest := by
        rcases List.mem_cons.mp hd with h1 | h2
        · subst h1
          rw [packEntry_none fs d hf] at hpe
          cases hpe
        · exact h2
      simp [packLoop, hpe, ih hdr]
    | error ex => simp [packLoop, hpe]

/-! ## Helper lemmas about jsIndexOf and path strings -/

theorem jsIndexOf_lb (l : List String) (s : String) :
    jsIndexOf l s = -1 ∨ 0 ≤ jsIndexOf l s := by
  induction l with
  | nil => exact Or.inl rfl
  | cons a rest ih =>
    simp only [jsIndexOf]
    by_cases has : a = s
    · rw [if_pos has]
      exact Or.inr le_rfl
    · rw [if_neg has]
      by_cases hi : jsIndexOf rest s = -1
      · rw [if_pos hi]
        exact Or.inl rfl
      · rw [if_neg hi]
        rcases ih with h | h
        · exact absurd h hi
        · exact Or.inr (by omega)

theorem jsIndexOf_ne_neg_one_iff (l : List String) (s : String) :
    (jsIndexOf l s ≠ -1) ↔ s ∈ l := by
  induction l with
  | nil => simp [jsIndexOf]
  | cons a rest ih =>
    simp only [jsIndexOf, List.mem_cons]
    by_cases has : a = s
    · rw [if_pos has]
      exact iff_of_true (by decide) (Or.inl has.symm)
    · rw [if_neg has]
      by_cases hi : jsIndexOf rest s = -1
      · rw [if_pos hi]
        have hns : s ∉ rest := fun hm => (ih.mpr hm) hi
        refine iff_of_false (by simp) ?_
        rintro (h1 | h2)
        · exact has h1.symm
        · exact hns h2
      · rw [if_neg hi]
        have hpos : 0 ≤ jsIndexOf rest s := (jsIndexOf_lb rest s).resolve_left hi
        exact iff_of_true (by omega) (Or.inr (ih.mp hi))

theorem map_noop (f : Char → Char) :
    ∀ l : List Char, (∀ x ∈ l, f x = x) → l.map f = l
  | [], _ => rfl
  | x :: r, h => by
      rw [List.map_cons, h x (by simp), map_noop f r (fun y hy => h y (by simp [hy]))]

theorem joinChars_map (f : Char → Char) (sep : Char) (hsep : f sep = '/') :
    ∀ cs : List String, (∀ c ∈ cs, c.data.map f = c.data) →
      (joinChars sep cs).map f = joinChars '/' cs
  | [], _ => rfl
  | [c], hc => by simpa [joinChars] using hc c (by simp)
  | c :: c2 :: r2, hc => by
      simp only [joinChars, List.map_append, List.map_cons]
      rw [hc c (by simp), hsep,
        joinChars_map f sep hsep (c2 :: r2) (fun x hx => hc x (by simp [hx]))]

theorem descNameOf_norm (os : OS) (e : WalkEntry)
    (hb : ∀ c ∈ e.rel, ('\\' : Char) ∉ c.data) :
    descNameOf os e = joinPath '/' ("META-INF" :: e.rel) := by
  unfold descNameOf replBackslash joinPath
  refine congrArg String.mk ?_
  apply joinChars_map
  · cases os <;> decide
  · intro c hc
    rcases List.mem_cons.mp hc with h1 | h2
    · subst h1
      decide
    · refine map_noop _ c.data (fun x hx => ?_)
      have hne : x ≠ '\\' := fun hx7 => hb c h2 (hx7 ▸ hx)
      simp [hne]

theorem joinPath_metaInf (rel : List String) (h : rel ≠ []) :
    joinPath '/' ("META-INF" :: rel) = "META-INF/" ++ joinPath '/' rel := by
  cases rel with
  | nil => exact absurd rfl h
  | cons c r =>
    show String.mk ("META-INF".data ++ '/' :: joinChars '/' (c :: r))
      = "META-INF/" ++ String.mk (joinChars '/' (c :: r))
    refine congrArg String.mk ?_
    rfl

/-! ## Claim theorems -/

/-- C1: for a fixed descriptor list, two runs of generateTarGz over
filesystems holding the same content bytes at every descriptor path (with
arbitrary, possibly different, timestamps) produce identical results, so
the tar and gzip serialization of those results is byte-identical. -/
theorem generateTarGz_content_deterministic (fs1 fs2 : FS) (descs : List Desc)
    (h : ∀ d ∈ descs, (fs1 d.fqp).map FSFile.content = (fs2 d.fqp).map FSFile.content) :
    generateTarGz fs1 descs = generateTarGz fs2 descs := by
  suffices hl : packLoop fs1 descs = packLoop fs2 descs by
    unfold generateTarGz
    rw [hl]
  induction descs with
  | nil => rfl
  | cons d rest ih =>
    have hd := h d (List.mem_cons_self d rest)
    have hpe : packEntry fs1 d = packEntry fs2 d := by
      cases h1 : fs1 d.fqp with
      | none =>
        cases h2 : fs2 d.fqp with
        | none => rw [packEntry_none fs1 d h1, packEntry_none fs2 d h2]
        | some f2 => rw [h1, h2] at hd; simp at hd
      | some f1 =>
        cases h2 : fs2 d.fqp with
        | none => rw [h1, h2] at hd; simp at hd
        | some f2 =>
          rw [h1, h2] at hd
          simp at hd
          rw [packEntry_some fs1 d f1 h1, packEntry_some fs2 d f2 h2, hd]
    have hrest := ih (fun x hx => h x (List.mem_cons_of_mem d hx))
    simp only [packLoop, hpe, hrest]

/-- C1 witness: the same bytes under two different sets of timestamps
give the same archive result. -/
theorem generateTarGz_content_deterministic_w :
    generateTarGz fsW1 descsW = generateTarGz fsW2 descsW :=
  generateTarGz_content_deterministic fsW1 fsW2 descsW (by decide)

/-- C2: every header built by a successful packEntry carries mode
0o100644, that is the regular-file type bits 0o100000 together with the
permission bits 0o644 (owner rw, group and others r), and all three
timestamps are the Unix epoch. -/
theorem packEntry_header_mode_times (fs : FS) (d : Desc) (hd : Header) (c : List Nat)
    (h : packEntry fs d = Except.ok (hd, c)) :
    hd.mode = 0o100644 ∧ hd.mode % 0o10000 = 0o644 ∧ hd.mode &&& 0o170000 = 0o100000
    ∧ hd.atime = 0 ∧ hd.mtime = 0 ∧ hd.ctime = 0 := by
  have hh := packEntry_ok_header fs d (hd, c) h
  simp only at hh
  rw [hh]
  refine ⟨rfl, ?_, ?_, rfl, rfl, rfl⟩
  · show (0o100644 : Nat) % 0o10000 = 0o644
    decide
  · show (0o100644 : Nat) &&& 0o170000 = 0o100000
    decide

/-- C2 witness: the header packed for the concrete one-file tree. -/
theorem packEntry_header_mode_times_w :
    hdrW.mode = 0o100644 ∧ hdrW.mode % 0o10000 = 0o644
    ∧ hdrW.mode &&& 0o170000 = 0o100000
    ∧ hdrW.atime = 0 ∧ hdrW.mtime = 0 ∧ hdrW.ctime = 0 :=
  packEntry_header_mode_times fsW1 { name := "a.go", fqp := "/src/a.go" } hdrW [10, 20] rfl

/-- C3: the size field of the header packEntry builds is undefined, not
the byte length of the content: the source reads content.size and a Node
Buffer exposes its byte count as length, not size.  At a three-byte file
the constructed header carries none where the claim requires some 3; the
entry is only written with the right size because tar-stream overwrites
header.size with the buffer length. -/
theorem packEntry_size_field_undefined :
    packEntry fsC3 { name := "f", fqp := "/f" }
      = Except.ok ({ name := "f", size := none, mode := 0o100644
                   , atime := 0, mtime := 0, ctime := 0 }, [7, 8, 9])
    ∧ ([7, 8, 9] : List Nat).length = 3
    ∧ (none : Option Nat) ≠ some 3 :=
  ⟨rfl, rfl, by decide⟩

/-- C4 counterexample: with the first of two descriptors unreadable, the
promise rejects, yet the loop packs the remaining entry and finalize
still runs, so the destination receives a finalized archive that contains
one entry instead of two. -/
theorem generateTarGz_partial_archive_cex :
    (generateTarGz fsC4 descsC4).rejected = some (JsError.fsThrow "/a")
    ∧ (generateTarGz fsC4 descsC4).finalized = true
    ∧ (generateTarGz fsC4 descsC4).entries
        = [({ name := "b", size := none, mode := 0o100644
            , atime := 0, mtime := 0, ctime := 0 }, [1, 2])]
    ∧ descsC4.length = 2 :=
  ⟨rfl, rfl, rfl, rfl⟩

/-- C4 amended: if any descriptor path is unreadable the promise rejects,
but the build is not aborted: the loop continues past the failure and
pack.finalize still runs, so a finalized archive missing the failed
entries is emitted to the destination. -/
theorem generateTarGz_reject_still_finalizes (fs : FS) (descs : List Desc) (d : Desc)
    (hd : d ∈ descs) (hf : fs d.fqp = none) :
    (generateTarGz fs descs).rejected.isSome = true
    ∧ (generateTarGz fs descs).finalized = true := by
  exact ⟨packLoop_err_isSome fs descs d hd hf, rfl⟩

/-- C4 amended witness: the concrete two-descriptor build rejects and
still finalizes. -/
theorem generateTarGz_reject_still_finalizes_w :
    (generateTarGz fsC4 descsC4).rejected.isSome = true
    ∧ (generateTarGz fsC4 descsC4).finalized = true :=
  generateTarGz_reject_still_finalizes fsC4 descsC4 { name := "a", fqp := "/a" }
    (by decide) (by decide)

/-- C5 counterexample: reading a zero-byte file does not reject; the
empty Buffer is truthy, so packEntry resolves with an empty entry. -/
theorem packEntry_empty_buffer_cex :
    packEntry fsEmptyW { name := "META-INF/empty.json", fqp := "/m/empty.json" }
      = Except.ok ({ name := "META-INF/empty.json", size := none, mode := 0o100644
                   , atime := 0, mtime := 0, ctime := 0 }, ([] : List Nat)) :=
  rfl

/-- C5 amended: a zero-length read result is not treated as a failure:
any Buffer, empty included, is truthy, so the falsy-content rejection
branch is unreachable for values readFileSync can return, and packEntry
packs a zero-byte file as an empty entry.  Only a thrown read (missing or
unreadable file) rejects. -/
theorem packEntry_zero_length_ok (fs : FS) (d : Desc) (f : FSFile)
    (hr : fs d.fqp = some f) (hz : f.content = []) :
    packEntry fs d = Except.ok
      ({ name := d.name, size := none, mode := 0o100644
       , atime := 0, mtime := 0, ctime := 0 }, ([] : List Nat)) := by
  rw [packEntry_some fs d f hr, hz]

/-- C5 amended witness: the concrete empty file packs successfully. -/
theorem packEntry_zero_length_ok_w :
    packEntry fsEmptyW { name := "e", fqp := "/m/empty.json" }
      = Except.ok ({ name := "e", size := none, mode := 0o100644
                   , atime := 0, mtime := 0, ctime := 0 }, ([] : List Nat)) :=
  packEntry_zero_length_ok fsEmptyW { name := "e", fqp := "/m/empty.json" }
    { content := [], atimeFs := 0, mtimeFs := 0, ctimeFs := 0 } rfl rfl

/-- C6 counterexample: on a posix host a regular metadata file named
with a literal backslash, a\b.json, passes isMetadata, but the split on
backslash and join with slash rewrites the backslash inside the file
name itself: the emitted descriptor is named META-INF/a/b.json, and the
descriptor the claim requires, whose name keeps the file name with its
backslash after normalising only OS separators, is not in the output. -/
theorem findMetadataDescriptors_backslash_cex :
    findMetadataDescriptors OS.posix ["meta"] [wEntryC6cex]
      = [{ name := "META-INF/a/b.json", fqp := "meta/a\\b.json" }]
    ∧ "META-INF/" ++ joinPath '/' wEntryC6cex.rel = "META-INF/a\\b.json"
    ∧ Desc.mk ("META-INF/" ++ joinPath '/' wEntryC6cex.rel) "meta/a\\b.json"
        ∉ findMetadataDescriptors OS.posix ["meta"] [wEntryC6cex] := by
  refine ⟨?_, ?_, ?_⟩ <;> decide

/-- C6 amended: every regular file of the walk that passes isMetadata
contributes a descriptor whose logical name is META-INF/ followed by its
path below the metadata root with components joined by forward slashes,
on either host OS, provided the component names themselves contain no
backslash; a backslash inside a component is rewritten to a slash as
well, so for such files the emitted name differs from the claimed one. -/
theorem findMetadataDescriptors_logical_name (os : OS) (root : List String)
    (walk : List WalkEntry) (e : WalkEntry)
    (he : e ∈ walk) (hf : e.isFile = true)
    (hm : isMetadataOS os (entryPath os root e) = true)
    (hb : ∀ c ∈ e.rel, ('\\' : Char) ∉ c.data)
    (hne : e.rel ≠ []) :
    Desc.mk ("META-INF/" ++ joinPath '/' e.rel) (entryPath os root e)
      ∈ findMetadataDescriptors os root walk := by
  rw [← joinPath_metaInf e.rel hne, ← descNameOf_norm os e hb]
  unfold findMetadataDescriptors
  refine List.mem_filterMap.mpr ⟨e, he, ?_⟩
  rw [hf, hm]
  rfl

/-- C6 amended witness: a nested json file walked on a windows host gets
the slash-separated META-INF name. -/
theorem findMetadataDescriptors_logical_name_w :
    Desc.mk ("META-INF/" ++ joinPath '/' ["statedb", "idx1.json"])
        (entryPath OS.win32 ["C:", "meta"] wEntryC6)
      ∈ findMetadataDescriptors OS.win32 ["C:", "meta"] [wEntryC6] :=
  findMetadataDescriptors_logical_name OS.win32 ["C:", "meta"] [wEntryC6] wEntryC6
    (List.mem_cons_self wEntryC6 []) rfl (by decide) (by decide) (by decide)

/-- C7: isSource holds exactly when the path extension is in the keep
list and isMetadata exactly when it is the json extension, both by exact
string comparison; when the path has no extension and the keep list does
not contain the empty string, neither predicate holds. -/
theorem classification_by_extension (keep : List String) (p : String) :
    (isSource keep p = true ↔ extname p ∈ keep)
    ∧ (isMetadata p = true ↔ extname p = ".json")
    ∧ (extname p = "" → ("" : String) ∉ keep →
        isSource keep p = false ∧ isMetadata p = false) := by
  have hs : isSource keep p = true ↔ extname p ∈ keep := by
    unfold isSource
    rw [bne_iff_ne]
    exact jsIndexOf_ne_neg_one_iff keep (extname p)
  have hm : isMetadata p = true ↔ extname p = ".json" := by
    unfold isMetadata isMetadataOS
    rw [bne_iff_ne]
    rw [jsIndexOf_ne_neg_one_iff]
    simp [extname]
  refine ⟨hs, hm, fun hne hnk => ⟨?_, ?_⟩⟩
  · cases h : isSource keep p
    · rfl
    · exact absurd (hne ▸ hs.mp h) hnk
  · cases h : isMetadata p
    · rfl
    · have h2 := hm.mp h
      rw [hne] at h2
      exact absurd h2 (by decide)

/-- C7 witness: a path without an extension is neither source nor
metadata under a keep list of dotted extensions. -/
theorem classification_by_extension_w :
    isSource [".go"] "Makefile" = false ∧ isMetadata "Makefile" = false :=
  (classification_by_extension [".go"] "Makefile").2.2 (by decide) (by decide)

/-- C8: the entries generateTarGz appends are exactly the per-descriptor
results in descriptor-list order, each entry fully packed before the
next; when every read succeeds the entry names are the descriptor names
in the same order, with no reordering. -/
theorem generateTarGz_preserves_order (fs : FS) (descs : List Desc)
    (h : ∀ d ∈ descs, (packEntry fs d).toOption.isSome = true) :
    (generateTarGz fs descs).entries
        = descs.filterMap (fun d => (packEntry fs d).toOption)
    ∧ (generateTarGz fs descs).entries.map (fun e => e.1.name)
        = descs.map Desc.name := by
  refine ⟨packLoop_entries_filterMap fs descs, ?_⟩
  show (packLoop fs descs).1.map (fun e => e.1.name) = descs.map Desc.name
  induction descs with
  | nil => rfl
  | cons d rest ih =>
    have hd := h d (List.mem_cons_self d rest)
    cases hpe : packEntry fs d with
    | error ex => rw [hpe] at hd; simp [Except.toOption] at hd
    | ok e =>
      have hname := packEntry_ok_header fs d e hpe
      have hr := ih (fun x hx => h x (List.mem_cons_of_mem d hx))
      simp only [packLoop, hpe, List.map_cons, hr, List.map]
      rw [hname]

/-- C8 witness: the one-descriptor build keeps the descriptor order. -/
theorem generateTarGz_preserves_order_w :
    (generateTarGz fsW1 descsW).entries
        = descsW.filterMap (fun d => (packEntry fsW1 d).toOption)
    ∧ (generateTarGz fsW1 descsW).entries.map (fun e => e.1.name)
        = descsW.map Desc.name :=
  generateTarGz_preserves_order fsW1 descsW (by decide)

/-- C9 counterexample: an error reported by the gzip compressor settles
nothing: no handler is attached to the gzip stream and pipe does not
forward error events, so the promise neither resolves nor rejects. -/
theorem settle_gzip_error_cex :
    settle [Occurrence.gzipError] = none
    ∧ settle [Occurrence.gzipError] ≠ some Outcome.rejected := by
  decide

/-- C9 amended: the promise resolves only after the destination emits
finish; it rejects only for a destination error or a failed entry read; a
trace of compressor errors alone settles nothing, because the gzip stream
has no error handler in the pipeline wiring. -/
theorem settle_pipeline_events (tr : List Occurrence) :
    (settle tr = some Outcome.resolved → Occurrence.destFinish ∈ tr)
    ∧ (settle tr = some Outcome.rejected →
        Occurrence.destError ∈ tr ∨ Occurrence.packFail ∈ tr)
    ∧ ((∀ o ∈ tr, o = Occurrence.gzipError) → settle tr = none) := by
  induction tr with
  | nil =>
    refine ⟨?_, ?_, ?_⟩
    · intro h
      cases h
    · intro h
      cases h
    · intro _
      rfl
  | cons o rest ih =>
    obtain ⟨ih1, ih2, ih3⟩ := ih
    cases o with
    | packFail =>
      refine ⟨fun h => ?_, fun _ => Or.inr (List.mem_cons_self _ _), fun hall => ?_⟩
      · simp [settle] at h
      · exact absurd (hall _ (List.mem_cons_self _ _)) (by decide)
    | destFinish =>
      refine ⟨fun _ => List.mem_cons_self _ _, fun h => ?_, fun hall => ?_⟩
      · simp [settle] at h
      · exact absurd (hall _ (List.mem_cons_self _ _)) (by decide)
    | destError =>
      refine ⟨fun h => ?_, fun _ => Or.inl (List.mem_cons_self _ _), fun hall => ?_⟩
      · simp [settle] at h
      · exact absurd (hall _ (List.mem_cons_self _ _)) (by decide)
    | gzipError =>
      have hstep : settle (Occurrence.gzipError :: rest) = settle rest := rfl
      refine ⟨fun h => ?_, fun h => ?_, fun hall => ?_⟩
      · exact List.mem_cons_of_mem _ (ih1 (hstep ▸ h))
      · rcases ih2 (hstep ▸ h) with h2 | h2
        · exact Or.inl (List.mem_cons_of_mem _ h2)
        · exact Or.inr (List.mem_cons_of_mem _ h2)
      · rw [hstep]
        exact ih3 (fun x hx => hall x (List.mem_cons_of_mem _ hx))

/-- C9 amended witness: a trace where the destination finishes after an
unobserved compressor error resolves, and finish is in the trace. -/
theorem settle_pipeline_events_w :
    Occurrence.destFinish ∈ [Occurrence.gzipError, Occurrence.destFinish] :=
  (settle_pipeline_events [Occurrence.gzipError, Occurrence.destFinish]).1 (by decide)

/-- C10: on an instance whose constructor received no keep array,
isSource throws a TypeError (the indexOf member access on undefined)
instead of returning false; with a configured keep list it returns the
membership test of the path extension. -/
theorem isSource_without_keep_throws (p : String) :
    isSourceRun (mkPackager none) p = Except.error JsError.typeError
    ∧ (∀ ks : List String, isSourceRun (mkPackager (some ks)) p
        = Except.ok (isSource ks p)) :=
  And.intro rfl (fun _ => rfl)

end BasePackager
